import Mathlib

/-!
Shallow embedding of the real-time audio pipeline of
`src/components/SpeakingPractice.tsx`.

Machine floats are modelled as rationals: every float operation the code
performs (multiplying a float32 sample by 0x7FFF or 0x8000, dividing a
16-bit integer by 32768) is exact in IEEE double precision, so ordinary
rational arithmetic plus explicit truncation toward zero is a faithful
model.  JS strings are modelled as `List Char`, the live-source set as a
list of source identifiers, and nullable refs as `Bool`/`Option` fields.
-/

namespace SpeakingPractice

/-! ### PCM codec

`floatTo16BitPCM` (source lines 13-20): clamp each sample to [-1, 1],
scale negatives by 0x8000 and non-negatives by 0x7FFF, and store into an
`Int16Array`.  Storing a JS number into an `Int16Array` truncates toward
zero (`ToInt16`); after the clamp every value is already inside the
signed 16-bit range, so no wrap-around occurs.
-/

/-- Truncation toward zero of a rational, as JS `ToIntegerOrInfinity`
performs when a number is stored into an `Int16Array`. -/
def truncRat (q : ℚ) : ℤ := if 0 ≤ q then ⌊q⌋ else ⌈q⌉

/-- Clamp of line 16: `Math.max(-1, Math.min(1, input[i]))`. -/
def clampSample (x : ℚ) : ℚ := max (-1) (min 1 x)

/-- Per-sample encoding of line 17:
`output[i] = s < 0 ? s * 0x8000 : s * 0x7FFF`. -/
def encodeSample (x : ℚ) : ℤ :=
  let s := clampSample x
  if s < 0 then truncRat (s * 32768) else truncRat (s * 32767)

/-- `floatTo16BitPCM` of lines 13-20, at the level of the 16-bit values
stored in the resulting `Int16Array`. -/
def floatTo16BitPCM (input : List ℚ) : List ℤ := input.map encodeSample

/-- Little-endian byte serialization of one 16-bit value, as laid out in
the `Int16Array`'s backing buffer that `arrayBufferToBase64` reads. -/
def int16ToBytes (n : ℤ) : List ℕ :=
  let u := (n % 65536).toNat
  [u % 256, u / 256]

/-- Backing-buffer bytes of the `Int16Array` produced by
`floatTo16BitPCM`, two little-endian bytes per sample. -/
def pcm16ToBytes : List ℤ → List ℕ
  | [] => []
  | n :: rest => int16ToBytes n ++ pcm16ToBytes rest

/-- Two's-complement reading of a 16-bit unsigned value, as an
`Int16Array` element access performs. -/
def toInt16 (u : ℕ) : ℤ := if u < 32768 then (u : ℤ) else (u : ℤ) - 65536

/-- View of a byte buffer as an `Int16Array` (source line 161,
`new Int16Array(audioBytes.buffer)`).  Constructing an `Int16Array` over
a buffer whose byte length is not a multiple of 2 throws a `RangeError`;
the throw is modelled as `none`. -/
def bytesToInt16 : List ℕ → Option (List ℤ)
  | [] => some []
  | _ :: [] => none
  | b0 :: b1 :: rest => (bytesToInt16 rest).map (fun l => toInt16 (b0 + 256 * b1) :: l)

/-- Per-sample decoding of line 164: `float32[i] = pcm16[i] / 32768.0`. -/
def decodeSample (n : ℤ) : ℚ := (n : ℚ) / 32768

/-- Decode loop of lines 161-165: view the bytes as 16-bit integers and
divide each by 32768. -/
def decodePCM16 (bytes : List ℕ) : Option (List ℚ) :=
  (bytesToInt16 bytes).map (List.map decodeSample)

/-! ### Playback scheduler

Lines 170-182: each inbound audio chunk is scheduled at
`startTime = max(nextStartTimeRef.current, ctx.currentTime)` and the
cursor advances to `startTime + buffer.duration`.  An enqueue call is
recorded by the chunk's duration and the output-clock reading
`ctx.currentTime` at the call. -/

/-- One playback enqueue call: the decoded chunk's duration
(`buffer.duration`, nonnegative in the code since it is
`length / sampleRate`) and the output clock `ctx.currentTime` read at
line 175. -/
structure EnqueueCall where
  dur : ℚ
  now : ℚ
deriving DecidableEq

/-- Start time committed at line 177:
`Math.max(nextStartTimeRef.current, currentTime)`. -/
def enqStart (cursor : ℚ) (e : EnqueueCall) : ℚ := max cursor e.now

/-- Cursor advance of line 180:
`nextStartTimeRef.current = startTime + buffer.duration`. -/
def enqNext (cursor : ℚ) (e : EnqueueCall) : ℚ := enqStart cursor e + e.dur

/-- Intervals `(startTime, startTime + duration)` committed by a
sequence of enqueue calls starting from a given cursor. -/
def schedule (cursor : ℚ) : List EnqueueCall → List (ℚ × ℚ)
  | [] => []
  | e :: rest =>
      (enqStart cursor e, enqStart cursor e + e.dur) :: schedule (enqNext cursor e) rest

/-- Value of `nextStartTimeRef.current` after a sequence of enqueue
calls. -/
def finalCursor (cursor : ℚ) : List EnqueueCall → ℚ
  | [] => cursor
  | e :: rest => finalCursor (enqNext cursor e) rest

/-! ### Transcript assembler

Lines 185-213 of the `onmessage` handler: append any transcript deltas
carried by the server message to the two accumulating buffers, and on a
`turnComplete` marker commit the trimmed buffers to the history. -/

/-- Whitespace test used by JS `String.prototype.trim`, restricted to
the characters that occur in practice. -/
def isWs (c : Char) : Bool :=
  c == ' ' || c == '\t' || c == '\n' || c == '\r' || c == '\x0b' || c == '\x0c'

/-- JS `String.prototype.trim`: drop leading and trailing whitespace. -/
def jsTrim (s : List Char) : List Char :=
  ((s.dropWhile isWs).reverse.dropWhile isWs).reverse

/-- Role of a committed `ChatMessage` (`'user' | 'model'`). -/
inductive Role where
  | user
  | model
deriving DecidableEq

/-- Message committed to the conversation history (lines 202 and 206). -/
structure ChatMessage where
  role : Role
  text : List Char
deriving DecidableEq

/-- State owned by the transcript-assembly part of the component: the
two accumulating buffers (`currentInputTransRef`, `currentOutputTransRef`)
and the committed history (`messages`). -/
structure TranscriptState where
  inputBuf : List Char
  outputBuf : List Char
  messages : List ChatMessage
deriving DecidableEq

/-- Transcript-relevant fields of a `LiveServerMessage`: the optional
input/output transcription deltas and the `turnComplete` flag. -/
structure ServerMessage where
  inputTrans : Option (List Char)
  outputTrans : Option (List Char)
  turnComplete : Bool
deriving DecidableEq

/-- Commit step of lines 197-213: each buffer whose trimmed content is
non-empty contributes one message (user first, then model) and is
cleared; a buffer whose trimmed content is empty is left untouched
(the reset on lines 203/207 sits inside the truthiness test). -/
def commitTurn (s : TranscriptState) : TranscriptState :=
  let newUser : List ChatMessage :=
    if jsTrim s.inputBuf ≠ [] then [⟨Role.user, jsTrim s.inputBuf⟩] else []
  let inBuf : List Char := if jsTrim s.inputBuf ≠ [] then [] else s.inputBuf
  let newModel : List ChatMessage :=
    if jsTrim s.outputBuf ≠ [] then [⟨Role.model, jsTrim s.outputBuf⟩] else []
  let outBuf : List Char := if jsTrim s.outputBuf ≠ [] then [] else s.outputBuf
  { inputBuf := inBuf, outputBuf := outBuf,
    messages := s.messages ++ (newUser ++ newModel) }

/-- Transcript handling of one `onmessage` call (lines 185-213): append
the deltas, then commit if the message carries `turnComplete`.  A JS
truthiness test guards each append, but appending the empty string is
the identity, so presence (`Option`) is the only relevant distinction. -/
def onmessageTranscript (s : TranscriptState) (m : ServerMessage) : TranscriptState :=
  let s1 :=
    match m.inputTrans with
    | some t => { s with inputBuf := s.inputBuf ++ t }
    | none => s
  let s2 :=
    match m.outputTrans with
    | some t => { s1 with outputBuf := s1.outputBuf ++ t }
    | none => s1
  if m.turnComplete then commitTurn s2 else s2

/-- Fold of `onmessageTranscript` over a sequence of server messages. -/
def runTranscript (s : TranscriptState) : List ServerMessage → TranscriptState
  | [] => s
  | m :: rest => runTranscript (onmessageTranscript s m) rest

/-- Initial transcript state of the component: empty buffers, empty
history. -/
def initialTranscript : TranscriptState := ⟨[], [], []⟩

/-- Property the pipeline guarantees for every committed message text:
it is non-empty, it is a fixed point of trimming (no leading or trailing
whitespace, stated also character-wise on the first and last character),
and it arose as the trim of some buffer content. -/
def committedText (t : List Char) : Prop :=
  t ≠ [] ∧ jsTrim t = t ∧
  (∀ c, t.head? = some c → isWs c = false) ∧
  (∀ c, t.getLast? = some c → isWs c = false) ∧
  ∃ b, t = jsTrim b

/-! ### Capture-to-transport send path

`onaudioprocess` (lines 114-136): if `sessionRef.current` is `null` the
frame is dropped (line 121); otherwise the send is attached to the
session promise with `.then`, so while the connection handshake is
pending the frame is queued on the promise and delivered when the
promise resolves. -/

/-- State of the outbound send path.  `hasSession`: whether
`sessionRef.current` is non-null; `resolved`: whether the session
promise has resolved (connection open); `pendingSends`: frames queued in
`.then` callbacks on the still-pending promise; `sent`: frames actually
passed to `session.sendRealtimeInput`. -/
structure SendState where
  hasSession : Bool
  resolved : Bool
  pendingSends : List ℕ
  sent : List ℕ
deriving DecidableEq

/-- One `onaudioprocess` callback delivering a capture frame (frames are
abstracted to identifiers). -/
def onaudioprocessSend (frame : ℕ) (s : SendState) : SendState :=
  if s.hasSession = false then s
  else if s.resolved then { s with sent := s.sent ++ [frame] }
  else { s with pendingSends := s.pendingSends ++ [frame] }

/-- Resolution of the session promise (the connection opens): every
`.then` callback queued on the promise runs, delivering its frame. -/
def resolveSession (s : SendState) : SendState :=
  { s with resolved := true, sent := s.sent ++ s.pendingSends, pendingSends := [] }

/-! ### Session controller teardown

`disconnect` (lines 235-259) and `initAudio` (lines 82-94). -/

/-- Resource refs and playback state owned by the component.  Each
`Bool` field records whether the corresponding ref is non-null;
`sources` is the live `sourcesRef` set (as a list of source
identifiers); `nextStart` is `nextStartTimeRef.current`. -/
structure ControllerState where
  session : Bool
  stream : Bool
  processor : Bool
  inputSource : Bool
  audioCtx : Bool
  sources : List ℕ
  nextStart : ℚ
  isConnected : Bool
deriving DecidableEq

/-- `disconnect` of lines 235-259: close the session, stop the stream
tracks, disconnect processor and input source, close the audio context
(each under a null guard, nulling the ref), call `stop()` on every live
source and clear the set.  Returns the new state together with the list
of sources that were forcibly stopped.  `nextStartTimeRef` is not
touched. -/
def disconnect (s : ControllerState) : ControllerState × List ℕ :=
  ({ session := false, stream := false, processor := false, inputSource := false,
     audioCtx := false, sources := [], nextStart := s.nextStart, isConnected := false },
   s.sources)

/-- `initAudio` of lines 82-94: acquire the output audio context and
reset `nextStartTimeRef.current = 0`. -/
def initAudio (s : ControllerState) : ControllerState :=
  { s with audioCtx := true, nextStart := 0 }

/-- Component state before `connect` is ever invoked: all refs null,
no live sources, cursor 0 (the `useRef` initializers of lines 51-57). -/
def freshController : ControllerState :=
  ⟨false, false, false, false, false, [], 0, false⟩

/-! ### Codec lemmas -/

theorem clampSample_mem (x : ℚ) : -1 ≤ clampSample x ∧ clampSample x ≤ 1 := by
  refine ⟨le_max_left _ _, max_le (by norm_num) (min_le_left _ _)⟩

theorem clampSample_eq_self {x : ℚ} (h1 : -1 ≤ x) (h2 : x ≤ 1) : clampSample x = x := by
  unfold clampSample
  rw [min_eq_right h2, max_eq_right h1]

theorem encodeSample_of_neg {x : ℚ} (h1 : -1 ≤ x) (hx : x < 0) :
    encodeSample x = ⌈x * 32768⌉ := by
  have hc : clampSample x = x := clampSample_eq_self h1 (by linarith)
  simp only [encodeSample, truncRat, hc]
  rw [if_pos hx, if_neg (by nlinarith)]

theorem encodeSample_of_nonneg {x : ℚ} (hx : 0 ≤ x) (h2 : x ≤ 1) :
    encodeSample x = ⌊x * 32767⌋ := by
  have hc : clampSample x = x := clampSample_eq_self (by linarith) h2
  simp only [encodeSample, truncRat, hc]
  rw [if_neg (not_lt.mpr hx), if_pos (by nlinarith)]

theorem encodeSample_range (x : ℚ) : -32768 ≤ encodeSample x ∧ encodeSample x ≤ 32767 := by
  obtain ⟨hl, hr⟩ := clampSample_mem x
  by_cases hneg : clampSample x < 0
  · have he : encodeSample x = ⌈clampSample x * 32768⌉ := by
      simp only [encodeSample, truncRat]
      rw [if_pos hneg, if_neg (by nlinarith)]
    rw [he]
    constructor
    · have hge : (-32768 : ℚ) ≤ clampSample x * 32768 := by nlinarith
      have := Int.le_ceil (clampSample x * 32768)
      exact_mod_cast hge.trans this
    · have : (⌈clampSample x * 32768⌉ : ℤ) ≤ 0 := Int.ceil_le.mpr (by push_cast; nlinarith)
      omega
  · push_neg at hneg
    have he : encodeSample x = ⌊clampSample x * 32767⌋ := by
      simp only [encodeSample, truncRat]
      rw [if_neg (not_lt.mpr hneg), if_pos (by nlinarith)]
    rw [he]
    constructor
    · have : (0 : ℤ) ≤ ⌊clampSample x * 32767⌋ := Int.le_floor.mpr (by push_cast; nlinarith)
      omega
    · have h1 := Int.floor_le (clampSample x * 32767)
      have h2 : (⌊clampSample x * 32767⌋ : ℚ) ≤ 32767 := by nlinarith
      exact_mod_cast h2

theorem bytesToInt16_int16ToBytes (n : ℤ) (bs : List ℕ)
    (h1 : -32768 ≤ n) (h2 : n ≤ 32767) :
    bytesToInt16 (int16ToBytes n ++ bs) = (bytesToInt16 bs).map (fun l => n :: l) := by
  simp only [int16ToBytes, List.cons_append, List.nil_append, bytesToInt16]
  have hu : (n % 65536).toNat % 256 + 256 * ((n % 65536).toNat / 256) = (n % 65536).toNat :=
    Nat.mod_add_div _ _
  rw [hu]
  have ht : toInt16 (n % 65536).toNat = n := by
    unfold toInt16
    split <;> omega
  rw [ht]
  rfl

theorem bytesToInt16_pcm16ToBytes (ns : List ℤ)
    (h : ∀ n ∈ ns, -32768 ≤ n ∧ n ≤ 32767) :
    bytesToInt16 (pcm16ToBytes ns) = some ns := by
  induction ns with
  | nil => rfl
  | cons n rest ih =>
    have hn := h n (by simp)
    rw [pcm16ToBytes, bytesToInt16_int16ToBytes n _ hn.1 hn.2,
      ih (fun m hm => h m (by simp [hm]))]
    rfl

theorem encodeSample_gt_one {x : ℚ} (hx : 1 < x) : encodeSample x = 32767 := by
  have hc : clampSample x = 1 := by
    unfold clampSample
    rw [min_eq_left hx.le, max_eq_right (by norm_num)]
  simp only [encodeSample, truncRat, hc]
  norm_num

theorem encodeSample_lt_neg_one {x : ℚ} (hx : x < -1) : encodeSample x = -32768 := by
  have hc : clampSample x = -1 := by
    unfold clampSample
    rw [min_eq_right (by linarith), max_eq_left hx.le]
  simp only [encodeSample, truncRat, hc]
  norm_num
  rw [show (-32768 : ℚ) = ((-32768 : ℤ) : ℚ) by norm_num, Int.ceil_intCast]

theorem decode_encode_close {x : ℚ} (h1 : -1 ≤ x) (h2 : x ≤ 1) :
    |decodeSample (encodeSample x) - x| ≤ 2 / 32768 := by
  rw [abs_le]
  by_cases hx : x < 0
  · rw [encodeSample_of_neg h1 hx]
    unfold decodeSample
    have hc1 := Int.le_ceil (x * 32768)
    have hc2 := Int.ceil_lt_add_one (x * 32768)
    constructor <;> [linarith; linarith]
  · push_neg at hx
    rw [encodeSample_of_nonneg hx h2]
    unfold decodeSample
    have hf1 := Int.floor_le (x * 32767)
    have hf2 := Int.sub_one_lt_floor (x * 32767)
    constructor <;> [linarith; linarith]

/-! ### Claim C3 -/

/-- C3 (counterexample): the claim bounds the round-trip error by one
quantization step, 1/32768.  The float32 sample 65535/65536 is encoded
(scale 32767, truncation) to 32766 and decoded (scale 32768) to
16383/16384, an error of 3/65536, strictly more than 1/32768 = 2/65536. -/
theorem roundtrip_error_exceeds_one_step :
    decodePCM16 (pcm16ToBytes (floatTo16BitPCM [65535 / 65536])) = some [16383 / 16384] ∧
    ¬(|(16383 / 16384 : ℚ) - 65535 / 65536| ≤ 1 / 32768) ∧
    (-1 : ℚ) ≤ 65535 / 65536 ∧ (65535 / 65536 : ℚ) ≤ 1 := by
  refine ⟨?_, ?_, by norm_num, by norm_num⟩
  · have he : floatTo16BitPCM [65535 / 65536] = [32766] := by
      simp only [floatTo16BitPCM, List.map_cons, List.map_nil]
      rw [encodeSample_of_nonneg (by norm_num) (by norm_num)]
      norm_num
    rw [he]
    unfold decodePCM16
    rw [bytesToInt16_pcm16ToBytes [32766]
      (by intro n hn; rw [List.mem_singleton] at hn; subst hn; norm_num)]
    simp only [Option.map_some', List.map_cons, List.map_nil, decodeSample]
    norm_num
  · intro hcon
    have h1 := (abs_le.mp hcon).1
    norm_num at h1

/-- C3 (amended): for every sample array with entries in [-1, 1], the
byte-level decode of the byte-level encode succeeds, has the same
length, and is pointwise within TWO quantization steps (2/32768) of the
input: negative samples round-trip within 1/32768, while non-negative
samples lose up to one extra step because they are encoded with scale
32767 but decoded with scale 32768. -/
theorem roundtrip_within_two_steps (xs : List ℚ) (h : ∀ x ∈ xs, -1 ≤ x ∧ x ≤ 1) :
    ∃ ys, decodePCM16 (pcm16ToBytes (floatTo16BitPCM xs)) = some ys ∧
      List.Forall₂ (fun y x => |y - x| ≤ 2 / 32768) ys xs := by
  refine ⟨(floatTo16BitPCM xs).map decodeSample, ?_, ?_⟩
  · unfold decodePCM16
    rw [bytesToInt16_pcm16ToBytes _ (fun n hn => ?_)]
    · rfl
    · obtain ⟨x, _, rfl⟩ := List.mem_map.mp hn
      exact encodeSample_range x
  · unfold floatTo16BitPCM
    rw [List.map_map, List.forall₂_map_left_iff, List.forall₂_same]
    intro x hx
    exact decode_encode_close (h x hx).1 (h x hx).2

/-- C3 (witness): the amended round-trip bound at the one-element array
with sample 1/2. -/
theorem roundtrip_within_two_steps_spot :
    ∃ ys, decodePCM16 (pcm16ToBytes (floatTo16BitPCM [1 / 2])) = some ys ∧
      List.Forall₂ (fun y x => |y - x| ≤ 2 / 32768) ys [1 / 2] :=
  roundtrip_within_two_steps [1 / 2]
    (by intro x hx; rw [List.mem_singleton] at hx; subst hx; constructor <;> norm_num)

/-! ### Claim C4 -/

/-- C4: decoding is NOT total — on the odd-length byte buffer
`[0, 0, 0]` the `Int16Array` view construction of line 161 throws a
`RangeError` (modelled `none`) instead of truncating to one sample,
while the even-length buffer `[0, 0]` decodes to one sample. -/
theorem decode_odd_length_errors :
    decodePCM16 [0, 0, 0] = none ∧ decodePCM16 [0, 0] = some [0] := by
  constructor
  · rfl
  · simp [decodePCM16, bytesToInt16, toInt16, decodeSample]

/-! ### Claim C8 -/

/-- C8: encoding [2, -2] yields exactly [32767, -32768]; in general any
sample above 1 encodes to 32767, any sample below -1 encodes to -32768,
and every encoded value lies in the signed 16-bit range (no wrap-around
or overflow). -/
theorem encode_clamps :
    floatTo16BitPCM [2, -2] = [32767, -32768] ∧
    (∀ x : ℚ, 1 < x → encodeSample x = 32767) ∧
    (∀ x : ℚ, x < -1 → encodeSample x = -32768) ∧
    (∀ x : ℚ, -32768 ≤ encodeSample x ∧ encodeSample x ≤ 32767) := by
  refine ⟨?_, fun x hx => encodeSample_gt_one hx, fun x hx => encodeSample_lt_neg_one hx,
    encodeSample_range⟩
  simp [floatTo16BitPCM, encodeSample_gt_one (by norm_num : (1 : ℚ) < 2),
    encodeSample_lt_neg_one (by norm_num : (-2 : ℚ) < -1)]

/-- C8 (witness): the clamping branches evaluated at the out-of-range
samples 5 and -5. -/
theorem encode_clamps_spot : encodeSample 5 = 32767 ∧ encodeSample (-5) = -32768 :=
  ⟨encode_clamps.2.1 5 (by norm_num), encode_clamps.2.2.1 (-5) (by norm_num)⟩

/-! ### Scheduler lemmas -/

theorem le_enqNext (c : ℚ) (e : EnqueueCall) (h : 0 ≤ e.dur) : c ≤ enqNext c e := by
  unfold enqNext enqStart
  have := le_max_left c e.now
  linarith

theorem cursor_le_finalCursor (c : ℚ) (l : List EnqueueCall)
    (h : ∀ e ∈ l, 0 ≤ e.dur) : c ≤ finalCursor c l := by
  induction l generalizing c with
  | nil => exact le_refl c
  | cons e rest ih =>
    rw [finalCursor]
    exact (le_enqNext c e (h e (by simp))).trans
      (ih _ (fun f hf => h f (by simp [hf])))

theorem le_schedule_start (c : ℚ) (l : List EnqueueCall)
    (h : ∀ e ∈ l, 0 ≤ e.dur) : ∀ iv ∈ schedule c l, c ≤ iv.1 := by
  induction l generalizing c with
  | nil => intro iv hiv; simp [schedule] at hiv
  | cons e rest ih =>
    intro iv hiv
    rw [schedule] at hiv
    rcases List.mem_cons.mp hiv with hhd | htl
    · rw [hhd]
      exact le_max_left c e.now
    · exact (le_enqNext c e (h e (by simp))).trans
        (ih _ (fun f hf => h f (by simp [hf])) iv htl)

theorem schedule_pairwise (c : ℚ) (l : List EnqueueCall)
    (h : ∀ e ∈ l, 0 ≤ e.dur) :
    (schedule c l).Pairwise (fun a b => a.2 ≤ b.1) := by
  induction l generalizing c with
  | nil => simp [schedule]
  | cons e rest ih =>
    rw [schedule]
    refine List.pairwise_cons.mpr ⟨?_, ih _ (fun f hf => h f (by simp [hf]))⟩
    intro iv hiv
    exact le_schedule_start (enqNext c e) rest (fun f hf => h f (by simp [hf])) iv hiv

theorem schedule_max_absorb (c now : ℚ) (l : List EnqueueCall)
    (h : ∀ e ∈ l, now ≤ e.now) : schedule (max c now) l = schedule c l := by
  cases l with
  | nil => rfl
  | cons e rest =>
    have hn : now ≤ e.now := h e (by simp)
    have hstart : enqStart (max c now) e = enqStart c e := by
      unfold enqStart
      rw [max_assoc, max_eq_right hn]
    have hnext : enqNext (max c now) e = enqNext c e := by
      unfold enqNext
      rw [hstart]
    rw [schedule, schedule, hstart, hnext]

/-! ### Claim C1 -/

/-- C1: for every enqueue sequence with nonnegative durations and
arbitrary clock readings, (a) the first chunk starts at
`max(cursor, now)` and the remaining chunks are scheduled from the
advanced cursor, (b) the committed `(start, start + dur)` intervals are
pairwise non-overlapping with non-decreasing start times, (c) the
`nextStartTime` cursor never decreases, and (d) when the output clock is
monotone a zero-length chunk occupies a degenerate interval and leaves
the schedule of all later chunks unchanged (no-op). -/
theorem scheduler_invariants (c : ℚ) (evs : List EnqueueCall)
    (hd : ∀ e ∈ evs, 0 ≤ e.dur) :
    (∀ e rest, evs = e :: rest →
        schedule c evs =
          (max c e.now, max c e.now + e.dur) :: schedule (max c e.now + e.dur) rest) ∧
    (schedule c evs).Pairwise (fun a b => a.2 ≤ b.1) ∧
    c ≤ finalCursor c evs ∧
    (∀ e rest, e.dur = 0 → (∀ f ∈ rest, e.now ≤ f.now) →
        schedule c (e :: rest) = (max c e.now, max c e.now) :: schedule c rest) := by
  refine ⟨?_, schedule_pairwise c evs hd, cursor_le_finalCursor c evs hd, ?_⟩
  · intro e rest hcons
    rw [hcons, schedule]
    rfl
  · intro e rest h0 hmono
    rw [schedule]
    unfold enqNext enqStart
    rw [h0, add_zero, schedule_max_absorb c e.now rest hmono]

/-- C1 (witness): the scheduler invariants applied to the concrete
trace of two chunks of durations 1 and 2 enqueued at clock times 0 and
3 from cursor 0. -/
theorem scheduler_invariants_spot :
    (0 : ℚ) ≤ finalCursor 0 [⟨1, 0⟩, ⟨2, 3⟩] :=
  (scheduler_invariants 0 [⟨1, 0⟩, ⟨2, 3⟩]
    (by
      intro e he
      simp only [List.mem_cons, List.not_mem_nil, or_false] at he
      rcases he with rfl | rfl <;> norm_num)).2.2.1

/-! ### Trim and transcript lemmas -/

theorem dropWhile_isWs_head (l : List Char) (c : Char) (t : List Char)
    (h : l.dropWhile isWs = c :: t) : isWs c = false := by
  induction l with
  | nil => simp [List.dropWhile] at h
  | cons a l' ih =>
    rw [List.dropWhile_cons] at h
    by_cases ha : isWs a = true
    · rw [if_pos ha] at h
      exact ih h
    · rw [if_neg ha] at h
      injection h with h1 h2
      subst h1
      simpa using ha

theorem dropWhile_isWs_eq_self (l : List Char) (c : Char)
    (hc : l.head? = some c) (hw : isWs c = false) : l.dropWhile isWs = l := by
  cases l with
  | nil => rfl
  | cons a l' =>
    rw [List.head?_cons] at hc
    injection hc with hac
    subst hac
    rw [List.dropWhile_cons, if_neg (by rw [hw]; exact Bool.false_ne_true)]

theorem jsTrim_getLast (s : List Char) (c : Char)
    (h : (jsTrim s).getLast? = some c) : isWs c = false := by
  unfold jsTrim at h
  rw [List.getLast?_reverse] at h
  cases hB : (s.dropWhile isWs).reverse.dropWhile isWs with
  | nil => rw [hB] at h; simp at h
  | cons b t =>
    rw [hB, List.head?_cons] at h
    injection h with hbc
    subst hbc
    exact dropWhile_isWs_head _ _ _ hB

theorem jsTrim_head (s : List Char) (c : Char)
    (h : (jsTrim s).head? = some c) : isWs c = false := by
  unfold jsTrim at h
  rw [List.head?_reverse] at h
  have hBne : (s.dropWhile isWs).reverse.dropWhile isWs ≠ [] := by
    intro hB
    rw [hB] at h
    simp at h
  obtain ⟨pre, hpre⟩ : (s.dropWhile isWs).reverse.dropWhile isWs <:+ (s.dropWhile isWs).reverse :=
    List.dropWhile_suffix isWs
  have h1 : ((s.dropWhile isWs).reverse).getLast? = some c := by
    rw [← hpre, List.getLast?_append_of_ne_nil _ hBne]
    exact h
  rw [List.getLast?_reverse] at h1
  cases hA : s.dropWhile isWs with
  | nil => rw [hA] at h1; simp at h1
  | cons a t =>
    rw [hA, List.head?_cons] at h1
    injection h1 with hac
    subst hac
    exact dropWhile_isWs_head s _ _ hA

theorem jsTrim_idem (s : List Char) : jsTrim (jsTrim s) = jsTrim s := by
  cases ht : jsTrim s with
  | nil => rfl
  | cons c t =>
    have hhead : isWs c = false := jsTrim_head s c (by rw [ht]; rfl)
    have h1 : (c :: t).dropWhile isWs = c :: t := dropWhile_isWs_eq_self _ c rfl hhead
    have h2 : ((c :: t).reverse).dropWhile isWs = (c :: t).reverse := by
      cases hr : (c :: t).reverse with
      | nil => simp at hr
      | cons d r =>
        have hd : isWs d = false := by
          refine jsTrim_getLast s d ?_
          rw [ht, ← List.head?_reverse, hr, List.head?_cons]
        exact dropWhile_isWs_eq_self _ d rfl hd
    unfold jsTrim
    rw [h1, h2, List.reverse_reverse]

theorem committedText_jsTrim (b : List Char) (h : jsTrim b ≠ []) :
    committedText (jsTrim b) :=
  ⟨h, jsTrim_idem b, fun c hc => jsTrim_head b c hc, fun c hc => jsTrim_getLast b c hc, ⟨b, rfl⟩⟩

theorem commitTurn_trimEmpty (s : TranscriptState) :
    jsTrim (commitTurn s).inputBuf = [] ∧ jsTrim (commitTurn s).outputBuf = [] := by
  simp only [commitTurn]
  constructor
  · split_ifs with h
    · rfl
    · exact not_not.mp h
  · split_ifs with h
    · rfl
    · exact not_not.mp h

theorem commitTurn_messages_committed (s : TranscriptState)
    (hs : ∀ x ∈ s.messages, committedText x.text) :
    ∀ x ∈ (commitTurn s).messages, committedText x.text := by
  intro x hx
  simp only [commitTurn, List.mem_append] at hx
  rcases hx with hx | hx | hx
  · exact hs x hx
  · by_cases h : jsTrim s.inputBuf ≠ []
    · rw [if_pos h] at hx
      rw [List.mem_singleton] at hx
      subst hx
      exact committedText_jsTrim _ h
    · rw [if_neg h] at hx
      simp at hx
  · by_cases h : jsTrim s.outputBuf ≠ []
    · rw [if_pos h] at hx
      rw [List.mem_singleton] at hx
      subst hx
      exact committedText_jsTrim _ h
    · rw [if_neg h] at hx
      simp at hx

theorem onmessage_messages_committed (s : TranscriptState) (m : ServerMessage)
    (hs : ∀ x ∈ s.messages, committedText x.text) :
    ∀ x ∈ (onmessageTranscript s m).messages, committedText x.text := by
  rcases m with ⟨it, ot, tc⟩
  cases it <;> cases ot <;> cases tc <;>
    simp only [onmessageTranscript, if_true, if_false, Bool.false_eq_true, ite_false,
      ite_true] <;>
    first
      | exact hs
      | exact commitTurn_messages_committed _ hs

theorem runTranscript_messages_committed (s : TranscriptState) (l : List ServerMessage)
    (hs : ∀ x ∈ s.messages, committedText x.text) :
    ∀ x ∈ (runTranscript s l).messages, committedText x.text := by
  induction l generalizing s with
  | nil => exact hs
  | cons m rest ih =>
    rw [runTranscript]
    exact ih _ (onmessage_messages_committed s m hs)

/-! ### Claim C2 -/

/-- C2: from deltas `input:"Hello"` and `output:"Hi there"`, a
`TurnComplete` appends exactly `{user,"Hello"}` then `{model,"Hi there"}`
to the history; from only an output delta it appends exactly one model
message; with no deltas the whole transcript state is unchanged; and in
general, whenever both buffers trim to non-empty, the commit appends the
user message before the model message. -/
theorem transcript_commit_ordering :
    (∀ h : List ChatMessage,
        runTranscript ⟨[], [], h⟩
          [⟨some "Hello".toList, none, false⟩, ⟨none, some "Hi there".toList, false⟩,
           ⟨none, none, true⟩] =
          ⟨[], [], h ++ [⟨Role.user, "Hello".toList⟩, ⟨Role.model, "Hi there".toList⟩]⟩) ∧
    (∀ h : List ChatMessage,
        runTranscript ⟨[], [], h⟩ [⟨none, some "Hi there".toList, false⟩, ⟨none, none, true⟩] =
          ⟨[], [], h ++ [⟨Role.model, "Hi there".toList⟩]⟩) ∧
    (∀ h : List ChatMessage,
        runTranscript ⟨[], [], h⟩ [⟨none, none, true⟩] = ⟨[], [], h⟩) ∧
    (∀ s : TranscriptState, jsTrim s.inputBuf ≠ [] → jsTrim s.outputBuf ≠ [] →
        (commitTurn s).messages =
          s.messages ++ [⟨Role.user, jsTrim s.inputBuf⟩, ⟨Role.model, jsTrim s.outputBuf⟩]) := by
  refine ⟨fun h => rfl, fun h => rfl, fun h => ?_, fun s h1 h2 => ?_⟩
  · rw [show runTranscript ⟨[], [], h⟩ [⟨none, none, true⟩] = ⟨[], [], h ++ []⟩ from rfl,
      List.append_nil]
  · simp only [commitTurn]
    rw [if_pos h1, if_pos h2]
    rfl

/-- C2 (witness): the general user-before-model commit ordering applied
to the concrete state with buffers "a" and "b" and empty history. -/
theorem transcript_commit_ordering_spot :
    (commitTurn ⟨['a'], ['b'], []⟩).messages =
      ([] : List ChatMessage) ++
        [⟨Role.user, jsTrim ['a']⟩, ⟨Role.model, jsTrim ['b']⟩] :=
  transcript_commit_ordering.2.2.2 ⟨['a'], ['b'], []⟩ (by decide) (by decide)

/-! ### Claim C6 -/

/-- C6 (counterexample): the claim says TurnComplete leaves both buffers
empty; on the whitespace-only input buffer `" "` the commit leaves the
buffer equal to `" "`, which is not empty — the reset of line 203 sits
inside the truthiness test of line 201. -/
theorem turnComplete_keeps_whitespace_buffer :
    (onmessageTranscript ⟨[' '], [], []⟩ ⟨none, none, true⟩).inputBuf = [' '] ∧
    ([' '] : List Char) ≠ [] := by
  constructor
  · rfl
  · decide

/-- C6 (amended): processing a TurnComplete leaves both buffers with
empty TRIMMED content: a buffer whose trimmed content is non-empty is
cleared, while a whitespace-only buffer is left as is (already
trim-empty); hence a buffer trims to non-empty only between its first
delta and the next TurnComplete. -/
theorem turnComplete_trim_empties (s : TranscriptState) (m : ServerMessage)
    (h : m.turnComplete = true) :
    jsTrim (onmessageTranscript s m).inputBuf = [] ∧
    jsTrim (onmessageTranscript s m).outputBuf = [] := by
  unfold onmessageTranscript
  rw [h, if_pos rfl]
  exact commitTurn_trimEmpty _

/-- C6 (witness): the amended commit property at the concrete state with
a whitespace-only input buffer and the buffer "x". -/
theorem turnComplete_trim_empties_spot :
    jsTrim (onmessageTranscript ⟨[' '], ['x'], []⟩ ⟨none, none, true⟩).inputBuf = [] ∧
    jsTrim (onmessageTranscript ⟨[' '], ['x'], []⟩ ⟨none, none, true⟩).outputBuf = [] :=
  turnComplete_trim_empties ⟨[' '], ['x'], []⟩ ⟨none, none, true⟩ rfl

/-! ### Claim C10 -/

/-- C10: every message ever committed to the history (over any sequence
of server messages from the initial state) has text that is non-empty,
is its own trim (no leading or trailing whitespace), and is the trimmed
content of some buffer. -/
theorem committed_messages_wellformed (msgs : List ServerMessage) :
    ∀ x ∈ (runTranscript initialTranscript msgs).messages, committedText x.text :=
  runTranscript_messages_committed initialTranscript msgs
    (by intro x hx; simp [initialTranscript] at hx)

/-- C10 (witness): the committed-text property for the message produced
by the one-turn trace with input delta "hi". -/
theorem committed_messages_wellformed_spot :
    committedText (⟨Role.user, ['h', 'i']⟩ : ChatMessage).text :=
  committed_messages_wellformed [⟨some ['h', 'i'], none, true⟩]
    ⟨Role.user, ['h', 'i']⟩ (by decide)

/-! ### Claim C7 -/

/-- C7 (counterexample): the claim says a frame emitted while the
session is not yet Open is dropped, never queued, and never transmitted
after the session opens.  With `sessionRef` holding the pending promise
(`hasSession = true, resolved = false`), frame 7 is queued in a `.then`
callback and is delivered once the promise resolves: after resolution
the sent list is exactly `[7]`. -/
theorem handshake_frame_transmitted :
    (onaudioprocessSend 7 ⟨true, false, [], []⟩).pendingSends = [7] ∧
    (resolveSession (onaudioprocessSend 7 ⟨true, false, [], []⟩)).sent = [7] := by
  constructor
  · rfl
  · rfl

/-- C7 (amended): a frame emitted while `sessionRef.current` is null
(before connect is invoked, or after disconnect nulled it) is silently
dropped — the state is unchanged, so it is neither queued nor ever
transmitted, even after a later resolution; a frame emitted during the
connection handshake (non-null, unresolved promise) is queued on the
promise and transmitted when the promise resolves; a frame emitted on a
resolved session is passed straight to `sendRealtimeInput`. -/
theorem send_path_drop_and_queue :
    (∀ (f : ℕ) (s : SendState), s.hasSession = false → onaudioprocessSend f s = s) ∧
    (∀ (f : ℕ) (s : SendState), s.hasSession = true → s.resolved = false →
        (onaudioprocessSend f s).pendingSends = s.pendingSends ++ [f] ∧
        (onaudioprocessSend f s).sent = s.sent) ∧
    (∀ (f : ℕ) (s : SendState), s.hasSession = true → s.resolved = true →
        (onaudioprocessSend f s).sent = s.sent ++ [f]) ∧
    (∀ (f : ℕ) (s : SendState), s.hasSession = false →
        (resolveSession (onaudioprocessSend f s)).sent = s.sent ++ s.pendingSends) := by
  refine ⟨?_, ?_, ?_, ?_⟩
  · intro f s h
    unfold onaudioprocessSend
    rw [if_pos h]
  · intro f s h1 h2
    unfold onaudioprocessSend
    rw [if_neg (by simp [h1]), if_neg (by simp [h2])]
    exact ⟨rfl, rfl⟩
  · intro f s h1 h2
    unfold onaudioprocessSend
    rw [if_neg (by simp [h1]), if_pos h2]
  · intro f s h
    unfold onaudioprocessSend
    rw [if_pos h]
    rfl

/-- C7 (witness): the drop branch applied to frame 3 and the concrete
state with no session ref. -/
theorem send_path_drop_and_queue_spot :
    onaudioprocessSend 3 ⟨false, false, [], []⟩ = ⟨false, false, [], []⟩ :=
  send_path_drop_and_queue.1 3 ⟨false, false, [], []⟩ rfl

/-! ### Claim C5 -/

/-- C5 (counterexample): the claim says that after disconnect the
`nextAvailableStart` cursor equals 0.  Disconnecting the concrete state
whose cursor is 5 leaves the cursor at 5: the reset to 0 is not part of
`disconnect` (lines 235-259 never touch `nextStartTimeRef`). -/
theorem disconnect_cursor_not_reset :
    (disconnect ⟨true, true, true, true, true, [1, 2], 5, true⟩).1.nextStart = 5 ∧
    ¬((disconnect ⟨true, true, true, true, true, [1, 2], 5, true⟩).1.nextStart = 0) := by
  constructor
  · rfl
  · show ¬((5 : ℚ) = 0)
    norm_num

/-- C5 (amended): disconnect forcibly stops every live source (the
returned stop list is exactly the prior live set) and clears the live
set, but leaves the `nextAvailableStart` cursor unchanged; the cursor is
reset to zero by `initAudio` at the start of the NEXT connect, not at
disconnect. -/
theorem disconnect_stops_all_sources :
    (∀ s : ControllerState,
        (disconnect s).2 = s.sources ∧
        (disconnect s).1.sources = [] ∧
        (disconnect s).1.nextStart = s.nextStart) ∧
    (∀ s : ControllerState, (initAudio s).nextStart = 0) :=
  ⟨fun _ => ⟨rfl, rfl, rfl⟩, fun _ => rfl⟩

/-! ### Claim C9 -/

/-- C9: disconnect is idempotent and total — a second disconnect leaves
the state fixed and stops nothing; after any disconnect the live
playback-source set is empty and every resource ref (session, stream,
processor, input source, audio context) is null; disconnecting the
fresh, never-connected state (no resources acquired) is a no-op that
stops nothing.  Every branch of the source is guarded by a null check,
so no call path can fail. -/
theorem disconnect_idempotent :
    (∀ s : ControllerState,
        disconnect (disconnect s).1 = ((disconnect s).1, []) ∧
        (disconnect s).1.sources = [] ∧
        (disconnect s).1.session = false ∧
        (disconnect s).1.stream = false ∧
        (disconnect s).1.processor = false ∧
        (disconnect s).1.inputSource = false ∧
        (disconnect s).1.audioCtx = false ∧
        (disconnect s).1.isConnected = false) ∧
    disconnect freshController = (freshController, []) :=
  ⟨fun _ => ⟨rfl, rfl, rfl, rfl, rfl, rfl, rfl, rfl⟩, rfl⟩

end SpeakingPractice
